import Mathlib

/-!
Verification of the requirements-pinning tool (populate_req.py).

The program reads a requirements file line by line, and for each parseable,
unversioned, non-URL line resolves a concrete version — preferring the locally
installed version and falling back to the latest version reported by the
remote package index — and rewrites the file in place.

The embedding models the three external collaborators as oracle functions:
the requirement parser (packaging.requirements.Requirement construction, which
may raise), the local package registry (importlib.metadata.version, which may
return a version, raise PackageNotFoundError, or raise another exception), and
the remote package index (requests.get plus JSON field extraction, either of
which may raise).  File reading and writing are modelled by their results.
Logging is modelled as an accumulated list of (level, message) entries.
-/

namespace PopulateReq

/-- Log levels of the logging module as used by the program. -/
inductive LogLevel where
  | debug
  | info
  | warning
  | error
deriving DecidableEq, Repr

/-- One emitted log record: a level and a message. -/
structure LogEntry where
  level : LogLevel
  msg : String
deriving DecidableEq, Repr

/-- Result of the underlying local-registry query `importlib.metadata.version`:
a version string, a PackageNotFoundError, or any other exception. -/
inductive LocalResult where
  | found (v : String)
  | notFound
  | raised (e : String)
deriving DecidableEq, Repr

deriving instance DecidableEq for Except

/-- Result of the remote query: either `requests.get` raised, or it returned a
response with a status code and — for the subsequent JSON body field access
`data` at `info` at `version` — an extracted string or a raised exception. -/
inductive RemoteResult where
  | response (status : Nat) (infoVersion : Except String String)
  | raised (e : String)
deriving DecidableEq, Repr

/-- A parsed requirement as produced by `packaging.requirements.Requirement`:
name, extras (in the set iteration order used by join), the version-specifier
constraints (empty list when absent), the environment marker, and the
direct URL. -/
structure Req where
  name : String
  extras : List String
  specifier : List String
  marker : Option String
  url : Option String
deriving DecidableEq, Repr

/-- Python truthiness of a string: nonempty. -/
def strTruthy (s : String) : Bool := !s.data.isEmpty

/-- Python truthiness of an optional string (None is falsy, a string is truthy
iff nonempty).  Used for `installed_version`, `latest_version`, `operator`,
`version` and `url`, all of which the source tests with a bare `if`. -/
def truthyOpt : Option String → Bool
  | none => false
  | some s => strTruthy s

/-- Python `str.strip()` whitespace set. -/
def pyIsSpace (c : Char) : Bool :=
  c = ' ' || c = '\t' || c = '\n' || c = '\r' || c = '\x0c' || c = '\x0b'

/-- Python `str.strip()`: drop leading and trailing whitespace. -/
def pyStrip (s : String) : String :=
  String.mk (((s.data.dropWhile pyIsSpace).reverse.dropWhile pyIsSpace).reverse)

/-- Python `s.startswith("#")`: the first character is a hash. -/
def startsWithHash (s : String) : Bool :=
  match s.data with
  | c :: _ => c = '#'
  | [] => false

/-- The first classifier test of the loop body:
`not package_line.strip() or package_line.strip().startswith("#")`. -/
def isBlankOrComment (packageLine : String) : Bool :=
  (pyStrip packageLine).data.isEmpty || startsWithHash (pyStrip packageLine)

/-- Python `",".join(extras)`. -/
def joinComma : List String → String
  | [] => ""
  | [x] => x
  | x :: xs => x ++ "," ++ joinComma xs

/-- Python `"\n".join(lines)`. -/
def joinNl : List String → String
  | [] => ""
  | [x] => x
  | x :: xs => x ++ "\n" ++ joinNl xs

/-- Split a character stream at newline characters; the result always has one
more piece than there are newlines. -/
def splitNlChars : List Char → List (List Char)
  | [] => [[]]
  | c :: rest =>
    if c = '\n' then [] :: splitNlChars rest
    else
      match splitNlChars rest with
      | l :: ls => (c :: l) :: ls
      | [] => [[c]]

/-- The logical lines the loop `for line in file` sees after
`line.rstrip(newline)`: text split at newlines, with no line for the final
empty piece when the content ends in a newline (and no lines at all for empty
content). -/
def fileLines (content : String) : List String :=
  let pieces := splitNlChars content.data
  let trimmed := if pieces.getLast? = some [] then pieces.dropLast else pieces
  trimmed.map String.mk

/-- `get_installed_version`: query the local registry; PackageNotFoundError is
logged at debug level and yields None, any other exception is logged at error
level and yields None. -/
def get_installed_version (reg : String → LocalResult) (packageName : String) :
    Option String × List LogEntry :=
  match reg packageName with
  | .found v => (some v, [])
  | .notFound =>
    (none, [⟨.debug, "Package " ++ packageName ++ " is not installed."⟩])
  | .raised e =>
    (none, [⟨.error, "Error getting installed version for " ++ packageName ++ ": " ++ e⟩])

/-- `get_latest_version_from_pypi`: on a 200 response return the extracted
`info.version` field; a non-200 status is logged as a warning and yields None;
any exception (from the request or the field extraction) is logged at error
level and yields None. -/
def get_latest_version_from_pypi (idx : String → RemoteResult) (packageName : String) :
    Option String × List LogEntry :=
  match idx packageName with
  | .raised e =>
    (none, [⟨.error, "Error fetching latest version from PyPI for " ++ packageName ++ ": " ++ e⟩])
  | .response status infoVersion =>
    if status = 200 then
      match infoVersion with
      | .ok v => (some v, [])
      | .error e =>
        (none,
         [⟨.error, "Error fetching latest version from PyPI for " ++ packageName ++ ": " ++ e⟩])
    else
      (none,
       [⟨.warning, "Failed to get latest version for " ++ packageName
          ++ " from PyPI. Status code: " ++ toString status⟩])

/-- The reconstruction block of the loop body: name, then `[extras]` when the
extras set is nonempty, then operator and version when both are truthy, then
`; marker` when a marker is present. -/
def reconstructLine (req : Req) (operator version : Option String) : String :=
  let s1 := req.name
  let s2 :=
    if req.extras.isEmpty then s1
    else s1 ++ "[" ++ joinComma req.extras ++ "]"
  let s3 :=
    if truthyOpt operator && truthyOpt version then
      s2 ++ operator.getD "" ++ version.getD ""
    else s2
  match req.marker with
  | some m => s3 ++ "; " ++ m
  | none => s3

/-- The loop body for one logical line: the list of lines it appends to
`updated_lines` (always exactly one) together with the log entries it emits. -/
def processLine (parse : String → Except String Req) (reg : String → LocalResult)
    (idx : String → RemoteResult) (packageLine : String) :
    List String × List LogEntry :=
  if isBlankOrComment packageLine then
    ([packageLine], [])
  else
    match parse packageLine with
    | .error e =>
      ([packageLine],
       [⟨.warning, "Could not parse the line: " ++ packageLine ++ ". Error: " ++ e⟩])
    | .ok req =>
      if truthyOpt req.url then
        ([packageLine], [])
      else
        let installed := get_installed_version reg req.name
        if truthyOpt installed.fst then
          if req.specifier.isEmpty then
            ([reconstructLine req (some "==") installed.fst], installed.snd)
          else
            ([packageLine], installed.snd)
        else
          if req.specifier.isEmpty then
            let latest := get_latest_version_from_pypi idx req.name
            if truthyOpt latest.fst then
              ([reconstructLine req (some "==") latest.fst], installed.snd ++ latest.snd)
            else
              ([packageLine],
               installed.snd ++ latest.snd
                 ++ [⟨.warning, "Could not find " ++ req.name ++ " on PyPI."⟩])
          else
            ([packageLine], installed.snd)

/-- Process a list of logical lines in order, accumulating output lines and
log entries. -/
def updateLines (parse : String → Except String Req) (reg : String → LocalResult)
    (idx : String → RemoteResult) : List String → List String × List LogEntry
  | [] => ([], [])
  | l :: rest =>
    let r := processLine parse reg idx l
    let rs := updateLines parse reg idx rest
    (r.fst ++ rs.fst, r.snd ++ rs.snd)

/-- Net effect of the run on the target file. -/
inductive FileOutcome where
  | unchanged
  | written (content : String)
  | writeFailed
deriving DecidableEq, Repr

/-- The read-and-accumulate phase inside the first `try`: obtain the content
(or propagate the read exception) and run every line through the loop body. -/
def readPhase (parse : String → Except String Req) (reg : String → LocalResult)
    (idx : String → RemoteResult) (readResult : Except String String) :
    Except String (List String × List LogEntry) := do
  let content ← readResult
  pure (updateLines parse reg idx (fileLines content))

/-- `update_requirements_file`: run the read phase; any exception there is
logged at error level and the function returns with the file untouched.
Otherwise write the output lines joined by newlines plus one trailing newline;
a write exception is logged at error level.  The codomain is `Except` so that
raising to the caller is representable; the theorems show it never happens. -/
def update_requirements_file (parse : String → Except String Req)
    (reg : String → LocalResult) (idx : String → RemoteResult)
    (readResult : Except String String) (writeResult : Option String) :
    Except String (FileOutcome × List LogEntry) :=
  match readPhase parse reg idx readResult with
  | .error e =>
    .ok (.unchanged, [⟨.error, "Error processing requirements file: " ++ e⟩])
  | .ok (updatedLines, logs) =>
    match writeResult with
    | none => .ok (.written (joinNl updatedLines ++ "\n"), logs)
    | some e =>
      .ok (.writeFailed, logs ++ [⟨.error, "Error writing to requirements file: " ++ e⟩])

/-- The content a successful run writes back for a given input content. -/
def runContent (parse : String → Except String Req) (reg : String → LocalResult)
    (idx : String → RemoteResult) (content : String) : String :=
  joinNl (updateLines parse reg idx (fileLines content)).fst ++ "\n"

/-! ## Concrete collaborators used to evaluate the development -/

/-- A concrete parser oracle: the behaviour of
`packaging.requirements.Requirement` on a handful of fixed inputs. -/
def demoParse : String → Except String Req := fun s =>
  if s = "numpy" then Except.ok ⟨"numpy", [], [], none, none⟩
  else if s = "requests[socks,security]" then
    Except.ok ⟨"requests", ["socks", "security"], [], some "sys_platform == \"linux\"", none⟩
  else if s = "flask>=2.0" then Except.ok ⟨"flask", [], [">=2.0"], none, none⟩
  else if s = "mylib @ git+https://example.com/mylib.git" then
    Except.ok ⟨"mylib", [], [], none, some "git+https://example.com/mylib.git"⟩
  else if s = "numpy==1.26.4" then Except.ok ⟨"numpy", [], ["==1.26.4"], none, none⟩
  else if s = "leftpad" then Except.ok ⟨"leftpad", [], [], none, none⟩
  else if s = "ghostpkg" then Except.ok ⟨"ghostpkg", [], [], none, none⟩
  else if s = "emptyver" then Except.ok ⟨"emptyver", [], [], none, none⟩
  else if s = "emptyidx" then Except.ok ⟨"emptyidx", [], [], none, none⟩
  else Except.error "Invalid requirement"

/-- A concrete local registry oracle. -/
def demoReg : String → LocalResult := fun n =>
  if n = "numpy" then .found "1.26.4"
  else if n = "requests" then .found "2.31.0"
  else if n = "oops" then .raised "metadata read failed"
  else if n = "emptyver" then .found ""
  else if n = "emptyidx" then .found ""
  else .notFound

/-- A concrete remote index oracle. -/
def demoIdx : String → RemoteResult := fun n =>
  if n = "leftpad" then .response 200 (.ok "1.3.0")
  else if n = "ghostpkg" then .response 404 (.error "not json")
  else if n = "emptyver" then .response 200 (.ok "9.9.9")
  else if n = "emptyidx" then .response 200 (.ok "")
  else .raised "connection refused"

/-! ## Basic lemmas about truthiness and the two lookups -/

theorem strTruthy_iff (s : String) : strTruthy s = true ↔ s ≠ "" := by
  simp [strTruthy, List.isEmpty_iff, String.ext_iff]

theorem truthyOpt_some (v : String) : truthyOpt (some v) = strTruthy v := rfl

/-- The version component returned by `get_installed_version` is either absent
or the version the registry reported. -/
theorem installed_fst_cases (reg : String → LocalResult) (n : String) :
    (get_installed_version reg n).fst = none
    ∨ ∃ v, reg n = LocalResult.found v ∧ (get_installed_version reg n).fst = some v := by
  unfold get_installed_version
  cases h : reg n <;> simp

/-- The version component returned by `get_latest_version_from_pypi` is either
absent or the field extracted from a 200 response. -/
theorem latest_fst_cases (idx : String → RemoteResult) (n : String) :
    (get_latest_version_from_pypi idx n).fst = none
    ∨ ∃ v, idx n = RemoteResult.response 200 (Except.ok v)
        ∧ (get_latest_version_from_pypi idx n).fst = some v := by
  unfold get_latest_version_from_pypi
  cases h : idx n with
  | raised e => simp
  | response status infoVersion =>
    by_cases hst : status = 200
    · subst hst
      cases infoVersion <;> simp
    · simp [hst]

/-- Every line of output is either the input line itself or a line pinned with
the operator string introduced at the assignment of `operator`, using a
truthy version obtained from the local registry or a 200 remote response. -/
theorem processLine_cases (parse : String → Except String Req)
    (reg : String → LocalResult) (idx : String → RemoteResult) (l : String) :
    (processLine parse reg idx l).fst = [l]
    ∨ ∃ req v, parse l = Except.ok req ∧ v ≠ ""
        ∧ (reg req.name = LocalResult.found v
            ∨ idx req.name = RemoteResult.response 200 (Except.ok v))
        ∧ (processLine parse reg idx l).fst
            = [reconstructLine req (some "==") (some v)] := by
  unfold processLine
  by_cases hbc : isBlankOrComment l
  · simp [hbc]
  · rw [if_neg hbc]
    cases hp : parse l with
    | error e => simp
    | ok req =>
      dsimp only
      by_cases hurl : truthyOpt req.url
      · simp [hurl]
      · rw [if_neg hurl]
        rcases installed_fst_cases reg req.name with hi | ⟨v, hv, hi⟩
        · rw [hi]
          by_cases hsp : req.specifier.isEmpty
          · rcases latest_fst_cases idx req.name with hl | ⟨w, hw, hl⟩
            · simp [hsp, hl, truthyOpt]
            · rw [hl]
              by_cases hwt : strTruthy w
              · refine Or.inr ⟨req, w, rfl, (strTruthy_iff w).mp hwt, Or.inr hw, ?_⟩
                simp [hsp, truthyOpt_some, hwt, truthyOpt]
              · simp [hsp, truthyOpt_some, hwt, truthyOpt]
          · simp [hsp, truthyOpt]
        · rw [hi, truthyOpt_some]
          by_cases hvt : strTruthy v
          · rw [if_pos hvt]
            by_cases hsp : req.specifier.isEmpty
            · exact Or.inr ⟨req, v, rfl, (strTruthy_iff v).mp hvt, Or.inl hv, by simp [hsp]⟩
            · simp [hsp]
          · rw [if_neg hvt]
            by_cases hsp : req.specifier.isEmpty
            · rcases latest_fst_cases idx req.name with hl | ⟨w, hw, hl⟩
              · simp [hsp, hl, truthyOpt]
              · rw [hl]
                by_cases hwt : strTruthy w
                · refine Or.inr ⟨req, w, rfl, (strTruthy_iff w).mp hwt, Or.inr hw, ?_⟩
                  simp [hsp, truthyOpt_some, hwt]
                · simp [hsp, truthyOpt_some, hwt]
            · simp [hsp]

/-- Each loop iteration appends exactly one line. -/
theorem processLine_singleton (parse : String → Except String Req)
    (reg : String → LocalResult) (idx : String → RemoteResult) (l : String) :
    ∃ s, (processLine parse reg idx l).fst = [s] := by
  rcases processLine_cases parse reg idx l with h | ⟨req, v, _, _, _, h⟩
  · exact ⟨l, h⟩
  · exact ⟨reconstructLine req (some "==") (some v), h⟩

/-- The output lines correspond one-to-one, in order, to the input lines:
each output line is exactly what the loop body appended for the input line in
the same position. -/
theorem updateLines_forall2 (parse : String → Except String Req)
    (reg : String → LocalResult) (idx : String → RemoteResult) (ls : List String) :
    List.Forall₂ (fun a b => (processLine parse reg idx a).fst = [b]) ls
      (updateLines parse reg idx ls).fst := by
  induction ls with
  | nil => exact List.Forall₂.nil
  | cons l rest ih =>
    obtain ⟨s, hs⟩ := processLine_singleton parse reg idx l
    unfold updateLines
    dsimp only
    rw [hs]
    exact List.Forall₂.cons hs ih

/-- As many output lines as input lines. -/
theorem updateLines_length (parse : String → Except String Req)
    (reg : String → LocalResult) (idx : String → RemoteResult) (ls : List String) :
    (updateLines parse reg idx ls).fst.length = ls.length :=
  ((updateLines_forall2 parse reg idx ls).length_eq).symm

/-- A list of lines each of which the loop body leaves unchanged is a fixed
point of the per-line transform. -/
theorem updateLines_fixed (parse : String → Except String Req)
    (reg : String → LocalResult) (idx : String → RemoteResult) (ls : List String)
    (h : ∀ l ∈ ls, (processLine parse reg idx l).fst = [l]) :
    (updateLines parse reg idx ls).fst = ls := by
  induction ls with
  | nil => rfl
  | cons l rest ih =>
    unfold updateLines
    dsimp only
    rw [h l (List.mem_cons_self l rest), ih (fun x hx => h x (List.mem_cons_of_mem l hx))]
    rfl

/-- A line whose successful parses all carry a specifier or a URL is passed
through unchanged, whatever the registry and the index answer. -/
theorem processLine_passes (parse : String → Except String Req)
    (reg : String → LocalResult) (idx : String → RemoteResult) (p : String)
    (h : ∀ req, parse p = Except.ok req →
          ¬req.specifier.isEmpty = true ∨ truthyOpt req.url = true) :
    (processLine parse reg idx p).fst = [p] := by
  unfold processLine
  by_cases hbc : isBlankOrComment p
  · simp [hbc]
  · rw [if_neg hbc]
    cases hp : parse p with
    | error e => rfl
    | ok req =>
      dsimp only
      rcases h req hp with hsp | hurl
      · by_cases hurl : truthyOpt req.url
        · simp [hurl]
        · rw [if_neg hurl]
          have hsp' : req.specifier.isEmpty = false := by
            simpa using hsp
          by_cases hin : truthyOpt (get_installed_version reg req.name).fst
          · simp [hin, hsp']
          · simp [hin, hsp']
      · simp [hurl]

/-! ## Lemmas about line splitting and joining -/

theorem splitNlChars_ne_nil (cs : List Char) : splitNlChars cs ≠ [] := by
  induction cs with
  | nil => simp [splitNlChars]
  | cons c rest ih =>
    unfold splitNlChars
    by_cases h : c = '\n'
    · simp [h]
    · rw [if_neg h]
      rcases hrec : splitNlChars rest with _ | ⟨l, ls⟩
      · exact absurd hrec ih
      · simp

theorem splitNlChars_mem_noNl (cs : List Char) :
    ∀ p ∈ splitNlChars cs, '\n' ∉ p := by
  induction cs with
  | nil =>
    intro p hp
    simp [splitNlChars] at hp
    simp [hp]
  | cons c rest ih =>
    intro p hp
    unfold splitNlChars at hp
    by_cases h : c = '\n'
    · rw [if_pos h] at hp
      rcases List.mem_cons.mp hp with h1 | h1
      · simp [h1]
      · exact ih p h1
    · rw [if_neg h] at hp
      rcases hrec : splitNlChars rest with _ | ⟨l, ls⟩
      · exact absurd hrec (splitNlChars_ne_nil rest)
      · rw [hrec] at hp
        rcases List.mem_cons.mp hp with h1 | h1
        · subst h1
          intro hmem
          rcases List.mem_cons.mp hmem with h2 | h2
          · exact h h2.symm
          · exact ih l (by rw [hrec]; exact List.mem_cons_self l ls) h2
        · exact ih p (by rw [hrec]; exact List.mem_cons_of_mem l h1)

/-- Splitting a stream that starts with a newline-free piece followed by a
newline peels off exactly that piece. -/
theorem splitNlChars_append (l rest : List Char) (h : '\n' ∉ l) :
    splitNlChars (l ++ '\n' :: rest) = l :: splitNlChars rest := by
  induction l with
  | nil => simp [splitNlChars]
  | cons c l' ih =>
    have hc : ¬c = '\n' := fun hc => h (by simp [hc])
    have h' : '\n' ∉ l' := fun hm => h (List.mem_cons_of_mem c hm)
    show splitNlChars (c :: (l' ++ '\n' :: rest)) = (c :: l') :: splitNlChars rest
    conv_lhs => rw [splitNlChars.eq_def]
    dsimp only
    rw [if_neg hc, ih h']

theorem joinNl_cons_cons (x y : String) (rest : List String) :
    joinNl (x :: y :: rest) = x ++ "\n" ++ joinNl (y :: rest) := rfl

theorem splitNlChars_joinNl (outs : List String) (hne : outs ≠ [])
    (hnl : ∀ s ∈ outs, '\n' ∉ s.data) :
    splitNlChars (joinNl outs ++ "\n").data = outs.map String.data ++ [[]] := by
  induction outs with
  | nil => exact absurd rfl hne
  | cons x rest ih =>
    cases rest with
    | nil =>
      have hx : '\n' ∉ x.data := hnl x (by simp)
      show splitNlChars (x ++ "\n").data = [x.data] ++ [[]]
      rw [String.data_append x "\n"]
      rw [show ("\n" : String).data = '\n' :: [] from rfl]
      rw [splitNlChars_append x.data [] hx]
      rfl
    | cons y rest' =>
      have hx : '\n' ∉ x.data := hnl x (by simp)
      have hdata : ((joinNl (x :: y :: rest')) ++ "\n").data
          = x.data ++ '\n' :: ((joinNl (y :: rest') ++ "\n").data) := by
        rw [joinNl_cons_cons]
        simp [String.data_append]
      rw [hdata, splitNlChars_append _ _ hx,
          ih (by simp) (fun s hs => hnl s (List.mem_cons_of_mem x hs))]
      rfl

/-- Reading back a written file recovers exactly the written lines, provided
there was at least one and none contains a newline. -/
theorem fileLines_joinNl (outs : List String) (hne : outs ≠ [])
    (hnl : ∀ s ∈ outs, '\n' ∉ s.data) :
    fileLines (joinNl outs ++ "\n") = outs := by
  simp only [fileLines]
  rw [splitNlChars_joinNl outs hne hnl]
  rw [List.getLast?_concat, if_pos rfl, List.dropLast_concat, List.map_map]
  exact List.map_id'' (fun _ => rfl) outs

theorem fileLines_noNl (content : String) : ∀ l ∈ fileLines content, '\n' ∉ l.data := by
  intro l hl
  simp only [fileLines] at hl
  rcases List.mem_map.mp hl with ⟨p, hp, rfl⟩
  have hsub : p ∈ splitNlChars content.data := by
    by_cases hc : (splitNlChars content.data).getLast? = some []
    · rw [if_pos hc] at hp
      exact List.dropLast_subset _ hp
    · rw [if_neg hc] at hp
      exact hp
  exact splitNlChars_mem_noNl content.data p hsub

/-! ## Lemmas about line reconstruction -/

theorem data_append_mem (a b : String) (c : Char) :
    c ∈ (a ++ b).data ↔ c ∈ a.data ∨ c ∈ b.data := by
  rw [String.data_append]
  exact List.mem_append

theorem noNl_append (a b : String) (ha : '\n' ∉ a.data) (hb : '\n' ∉ b.data) :
    '\n' ∉ (a ++ b).data :=
  fun hm => ((data_append_mem a b '\n').mp hm).elim ha hb

theorem joinComma_noNl (es : List String) (h : ∀ e ∈ es, '\n' ∉ e.data) :
    '\n' ∉ (joinComma es).data := by
  induction es with
  | nil => simp [joinComma]
  | cons e es' ih =>
    cases es' with
    | nil => exact h e (by simp)
    | cons f fs =>
      have he : '\n' ∉ e.data := h e (by simp)
      have hrest : '\n' ∉ (joinComma (f :: fs)).data :=
        ih (fun x hx => h x (List.mem_cons_of_mem e hx))
      rw [show joinComma (e :: f :: fs) = e ++ "," ++ joinComma (f :: fs) from rfl]
      exact noNl_append _ _ (noNl_append _ _ he (by decide)) hrest

theorem reconstructLine_noNl (req : Req) (v : String)
    (h1 : '\n' ∉ req.name.data)
    (h2 : ∀ e ∈ req.extras, '\n' ∉ e.data)
    (h3 : ∀ m, req.marker = some m → '\n' ∉ m.data)
    (h4 : '\n' ∉ v.data) :
    '\n' ∉ (reconstructLine req (some "==") (some v)).data := by
  unfold reconstructLine
  dsimp only
  have hs2 : '\n' ∉ (if req.extras.isEmpty then req.name
      else req.name ++ "[" ++ joinComma req.extras ++ "]").data := by
    by_cases hex : req.extras.isEmpty
    · simpa [hex] using h1
    · rw [if_neg hex]
      exact noNl_append _ _
        (noNl_append _ _ (noNl_append _ _ h1 (by decide)) (joinComma_noNl req.extras h2))
        (by decide)
  have hs3 : '\n' ∉ ((if req.extras.isEmpty then req.name
        else req.name ++ "[" ++ joinComma req.extras ++ "]")
      ++ (some "==" : Option String).getD "" ++ (some v : Option String).getD "").data := by
    exact noNl_append _ _ (noNl_append _ _ hs2 (by decide)) (by simpa using h4)
  by_cases hop : truthyOpt (some "==") && truthyOpt (some v)
  · rw [if_pos hop]
    cases hm : req.marker with
    | none => exact hs3
    | some m =>
      exact noNl_append _ _ (noNl_append _ _ hs3 (by decide)) (h3 m hm)
  · rw [if_neg hop]
    cases hm : req.marker with
    | none => exact hs2
    | some m =>
      exact noNl_append _ _ (noNl_append _ _ hs2 (by decide)) (h3 m hm)

/-- The pinned line, spelled out: name, bracketed comma-joined extras when the
extras set is nonempty, the operator `==` with no surrounding spaces, the
resolved version, and `; marker` when a marker is present. -/
theorem reconstructLine_eq (req : Req) (v : String) (hv : v ≠ "") :
    reconstructLine req (some "==") (some v) =
      req.name
      ++ (if req.extras.isEmpty then "" else "[" ++ joinComma req.extras ++ "]")
      ++ "==" ++ v
      ++ (match req.marker with | some m => "; " ++ m | none => "") := by
  unfold reconstructLine
  have hvt : strTruthy v = true := (strTruthy_iff v).mpr hv
  dsimp only
  cases hm : req.marker with
  | none =>
    by_cases hex : req.extras.isEmpty
    · simp [hex, truthyOpt_some, hvt, show strTruthy "==" = true from rfl,
        String.append_assoc, String.append_empty]
    · simp [hex, truthyOpt_some, hvt, show strTruthy "==" = true from rfl,
        String.append_assoc]
  | some m =>
    by_cases hex : req.extras.isEmpty
    · simp [hex, truthyOpt_some, hvt, show strTruthy "==" = true from rfl,
        String.append_assoc, String.append_empty]
    · simp [hex, truthyOpt_some, hvt, show strTruthy "==" = true from rfl,
        String.append_assoc]

/-! ## Lemmas about the output lines of a full pass -/

/-- If the parser reports a specifier or a URL on every pinned line it
accepts, then every output line of a pass is left unchanged by the loop
body. -/
theorem updateLines_out_fixed (parse : String → Except String Req)
    (reg : String → LocalResult) (idx : String → RemoteResult) (ls : List String)
    (H1 : ∀ req v req', v ≠ "" →
        parse (reconstructLine req (some "==") (some v)) = Except.ok req' →
        ¬req'.specifier.isEmpty = true ∨ truthyOpt req'.url = true) :
    ∀ out ∈ (updateLines parse reg idx ls).fst,
      (processLine parse reg idx out).fst = [out] := by
  induction ls with
  | nil =>
    intro out h
    simp [updateLines] at h
  | cons l rest ih =>
    intro out hout
    unfold updateLines at hout
    dsimp only at hout
    rcases List.mem_append.mp hout with h1 | h1
    · rcases processLine_cases parse reg idx l with hc | ⟨req, v, _, hv, _, hc⟩
      · rw [hc] at h1
        have heq : out = l := by simpa using h1
        rw [heq]
        exact hc
      · rw [hc] at h1
        have heq : out = reconstructLine req (some "==") (some v) := by simpa using h1
        rw [heq]
        exact processLine_passes parse reg idx _ (fun req' hp' => H1 req v req' hv hp')
    · exact ih out h1

/-- If the parser only produces newline-free components and both lookups only
produce newline-free versions, every output line of a pass is newline-free,
provided the input lines are. -/
theorem updateLines_out_noNl (parse : String → Except String Req)
    (reg : String → LocalResult) (idx : String → RemoteResult) (ls : List String)
    (hls : ∀ l ∈ ls, '\n' ∉ l.data)
    (H2 : ∀ s req, parse s = Except.ok req →
        '\n' ∉ req.name.data ∧ (∀ e ∈ req.extras, '\n' ∉ e.data)
        ∧ (∀ m, req.marker = some m → '\n' ∉ m.data))
    (H3 : ∀ n v, reg n = LocalResult.found v → '\n' ∉ v.data)
    (H4 : ∀ n v, idx n = RemoteResult.response 200 (Except.ok v) → '\n' ∉ v.data) :
    ∀ out ∈ (updateLines parse reg idx ls).fst, '\n' ∉ out.data := by
  induction ls with
  | nil =>
    intro out h
    simp [updateLines] at h
  | cons l rest ih =>
    intro out hout
    unfold updateLines at hout
    dsimp only at hout
    rcases List.mem_append.mp hout with h1 | h1
    · rcases processLine_cases parse reg idx l with hc | ⟨req, v, hp, _, hprov, hc⟩
      · rw [hc] at h1
        have heq : out = l := by simpa using h1
        rw [heq]
        exact hls l (List.mem_cons_self l rest)
      · rw [hc] at h1
        have heq : out = reconstructLine req (some "==") (some v) := by simpa using h1
        rw [heq]
        obtain ⟨hn, he, hmk⟩ := H2 l req hp
        have hvnl : '\n' ∉ v.data := by
          rcases hprov with hpr | hpr
          · exact H3 req.name v hpr
          · exact H4 req.name v hpr
        exact reconstructLine_noNl req v hn he hmk hvnl
    · exact ih (fun x hx => hls x (List.mem_cons_of_mem l hx)) out h1

/-- The loop body leaves an empty logical line unchanged (it is blank). -/
theorem processLine_blank (parse : String → Except String Req)
    (reg : String → LocalResult) (idx : String → RemoteResult) :
    processLine parse reg idx "" = ([""], []) := by
  unfold processLine
  rw [if_pos (show isBlankOrComment "" = true from rfl)]

/-- A successful read with a successful write: the function writes the output
lines joined by newlines followed by one trailing newline. -/
theorem update_ok (parse : String → Except String Req)
    (reg : String → LocalResult) (idx : String → RemoteResult) (content : String) :
    update_requirements_file parse reg idx (Except.ok content) none
      = Except.ok (FileOutcome.written (runContent parse reg idx content),
          (updateLines parse reg idx (fileLines content)).snd) := rfl

/-! ## The claims -/

/-- C2: every line classified as pass-through — blank, comment, unparseable,
carrying a URL reference, or carrying any existing version specifier
(regardless of whether the package is installed) — produces an output line
equal to the input line, byte for byte. -/
theorem C2_passthrough_unchanged (parse : String → Except String Req)
    (reg : String → LocalResult) (idx : String → RemoteResult) (line : String)
    (h : isBlankOrComment line = true
      ∨ (∃ e, parse line = Except.error e)
      ∨ (∃ req, parse line = Except.ok req ∧ truthyOpt req.url = true)
      ∨ (∃ req, parse line = Except.ok req ∧ req.specifier ≠ [])) :
    (processLine parse reg idx line).fst = [line] := by
  unfold processLine
  by_cases hbc : isBlankOrComment line
  · simp [hbc]
  · rw [if_neg hbc]
    rcases h with h | ⟨e, he⟩ | ⟨req, hp, hurl⟩ | ⟨req, hp, hsp⟩
    · exact absurd h hbc
    · rw [he]
    · rw [hp]
      dsimp only
      rw [if_pos hurl]
    · rw [hp]
      dsimp only
      have hsp' : req.specifier.isEmpty = false := by
        cases hs : req.specifier with
        | nil => exact absurd hs hsp
        | cons a as => rfl
      by_cases hurl : truthyOpt req.url
      · rw [if_pos hurl]
      · rw [if_neg hurl]
        by_cases hin : truthyOpt (get_installed_version reg req.name).fst
        · simp [hin, hsp']
        · simp [hin, hsp']

/-- Witness for C2 at a comment line, an unparseable line, a URL line and an
already-versioned line, under the concrete collaborators. -/
theorem C2_witness :
    (processLine demoParse demoReg demoIdx "# pinned manually").fst = ["# pinned manually"]
    ∧ (processLine demoParse demoReg demoIdx "???").fst = ["???"]
    ∧ (processLine demoParse demoReg demoIdx
        "mylib @ git+https://example.com/mylib.git").fst
        = ["mylib @ git+https://example.com/mylib.git"]
    ∧ (processLine demoParse demoReg demoIdx "flask>=2.0").fst = ["flask>=2.0"] :=
  ⟨C2_passthrough_unchanged demoParse demoReg demoIdx "# pinned manually"
      (Or.inl (by decide)),
   C2_passthrough_unchanged demoParse demoReg demoIdx "???"
      (Or.inr (Or.inl ⟨"Invalid requirement", by decide⟩)),
   C2_passthrough_unchanged demoParse demoReg demoIdx
      "mylib @ git+https://example.com/mylib.git"
      (Or.inr (Or.inr (Or.inl
        ⟨⟨"mylib", [], [], none, some "git+https://example.com/mylib.git"⟩,
         by decide, by decide⟩))),
   C2_passthrough_unchanged demoParse demoReg demoIdx "flask>=2.0"
      (Or.inr (Or.inr (Or.inr
        ⟨⟨"flask", [], [">=2.0"], none, none⟩, by decide, by decide⟩)))⟩

/-- C6: an error while reading is logged at error level and aborts the whole
operation: the function returns early, performs no write, and the file is
unchanged. -/
theorem C6_read_error_aborts (parse : String → Except String Req)
    (reg : String → LocalResult) (idx : String → RemoteResult)
    (e : String) (writeResult : Option String) :
    update_requirements_file parse reg idx (Except.error e) writeResult
      = Except.ok (FileOutcome.unchanged,
          [⟨LogLevel.error, "Error processing requirements file: " ++ e⟩]) := rfl

/-- C7: no exception escapes the function: for every parser, registry, index,
read result and write result, it returns an ok value to its caller. -/
theorem C7_no_exception_escapes (parse : String → Except String Req)
    (reg : String → LocalResult) (idx : String → RemoteResult)
    (readResult : Except String String) (writeResult : Option String) :
    ∃ r, update_requirements_file parse reg idx readResult writeResult
      = Except.ok r := by
  unfold update_requirements_file
  cases hr : readPhase parse reg idx readResult with
  | error e => exact ⟨_, rfl⟩
  | ok p =>
    cases p with
    | mk lines logs =>
      cases writeResult with
      | none => exact ⟨_, rfl⟩
      | some e => exact ⟨_, rfl⟩

/-- C9: a run on an empty file writes exactly one newline character, and a
further run on that output writes exactly one newline again. -/
theorem C9_empty_file (parse : String → Except String Req)
    (reg : String → LocalResult) (idx : String → RemoteResult) :
    update_requirements_file parse reg idx (Except.ok "") none
      = Except.ok (FileOutcome.written "\n", [])
    ∧ update_requirements_file parse reg idx (Except.ok "\n") none
      = Except.ok (FileOutcome.written "\n", []) :=
  ⟨rfl, rfl⟩

/-- C1: a parseable, unversioned, non-URL line whose package is installed
locally at version v is rewritten to exactly the package name, then the
bracketed comma-joined extras list when the extras set is nonempty, then `==`
with no surrounding spaces, then v, then `; ` and the marker string when a
marker is present; and every output line of the loop body is either the input
line itself or a line pinned with the operator `==`. -/
theorem C1_pin_installed (parse : String → Except String Req)
    (reg : String → LocalResult) (idx : String → RemoteResult)
    (line : String) (req : Req) (v : String)
    (hbc : isBlankOrComment line = false)
    (hp : parse line = Except.ok req)
    (hurl : truthyOpt req.url = false)
    (hspec : req.specifier = [])
    (hreg : reg req.name = LocalResult.found v)
    (hv : v ≠ "") :
    (processLine parse reg idx line).fst
      = [req.name
          ++ (if req.extras.isEmpty then "" else "[" ++ joinComma req.extras ++ "]")
          ++ "==" ++ v
          ++ (match req.marker with | some m => "; " ++ m | none => "")]
    ∧ ∀ l, (processLine parse reg idx l).fst = [l]
        ∨ ∃ r w, (processLine parse reg idx l).fst
            = [reconstructLine r (some "==") (some w)] := by
  constructor
  · have h1 : (processLine parse reg idx line).fst
        = [reconstructLine req (some "==") (some v)] := by
      unfold processLine
      rw [if_neg (by simp [hbc]), hp]
      dsimp only
      rw [if_neg (by simp [hurl])]
      simp only [get_installed_version, hreg]
      rw [if_pos (by simp [truthyOpt_some, (strTruthy_iff v).mpr hv]),
          if_pos (by simp [hspec])]
    rw [h1, reconstructLine_eq req v hv]
  · intro l
    rcases processLine_cases parse reg idx l with hc | ⟨r, w, _, _, _, hc⟩
    · exact Or.inl hc
    · exact Or.inr ⟨r, w, hc⟩

/-- Witness for C1: a line with extras and a marker, installed locally. -/
theorem C1_witness :
    (processLine demoParse demoReg demoIdx "requests[socks,security]").fst
      = ["requests[socks,security]==2.31.0; sys_platform == \"linux\""] := by
  have h := (C1_pin_installed demoParse demoReg demoIdx "requests[socks,security]"
    ⟨"requests", ["socks", "security"], [], some "sys_platform == \"linux\"", none⟩
    "2.31.0" (by decide) (by decide) rfl rfl (by decide) (by decide)).1
  exact h.trans (by decide)

/-- C3: a parseable, unversioned, non-URL line whose package is not installed
locally is pinned to the version a 200 remote response reports; and when the
remote lookup yields no version (transport exception, non-200 status, or
extraction failure), the line is left identical to the input and a warning is
logged. -/
theorem C3_pin_remote (parse : String → Except String Req)
    (reg : String → LocalResult) (idx : String → RemoteResult)
    (line : String) (req : Req)
    (hbc : isBlankOrComment line = false)
    (hp : parse line = Except.ok req)
    (hurl : truthyOpt req.url = false)
    (hspec : req.specifier = [])
    (hinst : truthyOpt (get_installed_version reg req.name).fst = false) :
    (∀ w, idx req.name = RemoteResult.response 200 (Except.ok w) → w ≠ "" →
      (processLine parse reg idx line).fst
        = [req.name
            ++ (if req.extras.isEmpty then "" else "[" ++ joinComma req.extras ++ "]")
            ++ "==" ++ w
            ++ (match req.marker with | some m => "; " ++ m | none => "")])
    ∧ (((∃ e, idx req.name = RemoteResult.raised e)
        ∨ (∃ st jv, idx req.name = RemoteResult.response st jv ∧ st ≠ 200)
        ∨ (∃ e, idx req.name = RemoteResult.response 200 (Except.error e))) →
      (processLine parse reg idx line).fst = [line]
      ∧ (⟨LogLevel.warning, "Could not find " ++ req.name ++ " on PyPI."⟩ : LogEntry)
          ∈ (processLine parse reg idx line).snd) := by
  have hred : processLine parse reg idx line
      = (if truthyOpt (get_latest_version_from_pypi idx req.name).fst then
          ([reconstructLine req (some "==") (get_latest_version_from_pypi idx req.name).fst],
            (get_installed_version reg req.name).snd
              ++ (get_latest_version_from_pypi idx req.name).snd)
        else
          ([line],
            (get_installed_version reg req.name).snd
              ++ (get_latest_version_from_pypi idx req.name).snd
              ++ [⟨LogLevel.warning, "Could not find " ++ req.name ++ " on PyPI."⟩])) := by
    unfold processLine
    rw [if_neg (by simp [hbc]), hp]
    dsimp only
    rw [if_neg (by simp [hurl]), if_neg (by simp [hinst]), if_pos (by simp [hspec])]
  constructor
  · intro w hw hwne
    rw [hred]
    have hlat : get_latest_version_from_pypi idx req.name = (some w, []) := by
      unfold get_latest_version_from_pypi
      rw [hw]
      rfl
    rw [hlat]
    rw [if_pos (by simp [truthyOpt_some, (strTruthy_iff w).mpr hwne])]
    rw [reconstructLine_eq req w hwne]
  · intro hfail
    have hlat : (get_latest_version_from_pypi idx req.name).fst = none := by
      rcases hfail with ⟨e, he⟩ | ⟨st, jv, he, hst⟩ | ⟨e, he⟩
      · unfold get_latest_version_from_pypi
        rw [he]
      · unfold get_latest_version_from_pypi
        rw [he]
        dsimp only
        rw [if_neg hst]
      · unfold get_latest_version_from_pypi
        rw [he]
        rfl
    rw [hred, if_neg (by simp [hlat, truthyOpt])]
    exact ⟨rfl, by simp⟩

/-- Witness for C3: a package found remotely is pinned; a package the remote
index rejects with a 404 is passed through with a warning. -/
theorem C3_witness :
    (processLine demoParse demoReg demoIdx "leftpad").fst = ["leftpad==1.3.0"]
    ∧ (processLine demoParse demoReg demoIdx "ghostpkg").fst = ["ghostpkg"]
    ∧ (⟨LogLevel.warning, "Could not find ghostpkg on PyPI."⟩ : LogEntry)
        ∈ (processLine demoParse demoReg demoIdx "ghostpkg").snd := by
  have h1 := (C3_pin_remote demoParse demoReg demoIdx "leftpad"
    ⟨"leftpad", [], [], none, none⟩
    (by decide) (by decide) rfl rfl (by decide)).1 "1.3.0" (by decide) (by decide)
  have h2 := (C3_pin_remote demoParse demoReg demoIdx "ghostpkg"
    ⟨"ghostpkg", [], [], none, none⟩
    (by decide) (by decide) rfl rfl (by decide)).2
    (Or.inr (Or.inl ⟨404, Except.error "not json", by decide, by decide⟩))
  refine ⟨h1.trans (by decide), h2.1, ?_⟩
  have := h2.2
  exact this

/-- C10: resolved versions are tested for truthiness: a locally installed
empty-string version sends resolution to the remote index, and an empty
string from the remote index counts as not found, leaving the line unchanged
with a warning. -/
theorem C10_truthiness (parse : String → Except String Req)
    (reg : String → LocalResult) (idx : String → RemoteResult)
    (line : String) (req : Req)
    (hbc : isBlankOrComment line = false)
    (hp : parse line = Except.ok req)
    (hurl : truthyOpt req.url = false)
    (hspec : req.specifier = [])
    (hreg : reg req.name = LocalResult.found "") :
    (∀ w, idx req.name = RemoteResult.response 200 (Except.ok w) → w ≠ "" →
      (processLine parse reg idx line).fst
        = [reconstructLine req (some "==") (some w)])
    ∧ (idx req.name = RemoteResult.response 200 (Except.ok "") →
      (processLine parse reg idx line).fst = [line]
      ∧ (⟨LogLevel.warning, "Could not find " ++ req.name ++ " on PyPI."⟩ : LogEntry)
          ∈ (processLine parse reg idx line).snd) := by
  have hinst : truthyOpt (get_installed_version reg req.name).fst = false := by
    unfold get_installed_version
    rw [hreg]
    rfl
  have hred : processLine parse reg idx line
      = (if truthyOpt (get_latest_version_from_pypi idx req.name).fst then
          ([reconstructLine req (some "==") (get_latest_version_from_pypi idx req.name).fst],
            (get_installed_version reg req.name).snd
              ++ (get_latest_version_from_pypi idx req.name).snd)
        else
          ([line],
            (get_installed_version reg req.name).snd
              ++ (get_latest_version_from_pypi idx req.name).snd
              ++ [⟨LogLevel.warning, "Could not find " ++ req.name ++ " on PyPI."⟩])) := by
    unfold processLine
    rw [if_neg (by simp [hbc]), hp]
    dsimp only
    rw [if_neg (by simp [hurl]), if_neg (by simp [hinst]), if_pos (by simp [hspec])]
  constructor
  · intro w hw hwne
    have hlat : get_latest_version_from_pypi idx req.name = (some w, []) := by
      unfold get_latest_version_from_pypi
      rw [hw]
      rfl
    rw [hred, hlat, if_pos (by simp [truthyOpt_some, (strTruthy_iff w).mpr hwne])]
  · intro hw
    have hlat : get_latest_version_from_pypi idx req.name = (some "", []) := by
      unfold get_latest_version_from_pypi
      rw [hw]
      rfl
    rw [hred, hlat, if_neg (by simp [truthyOpt_some, strTruthy])]
    exact ⟨rfl, by simp⟩

/-- Witness for C10: an empty installed version falls through to a successful
remote lookup, and an empty remote version counts as not found. -/
theorem C10_witness :
    (processLine demoParse demoReg demoIdx "emptyver").fst = ["emptyver==9.9.9"]
    ∧ (processLine demoParse demoReg demoIdx "emptyidx").fst = ["emptyidx"]
    ∧ (⟨LogLevel.warning, "Could not find emptyidx on PyPI."⟩ : LogEntry)
        ∈ (processLine demoParse demoReg demoIdx "emptyidx").snd := by
  have h1 := (C10_truthiness demoParse demoReg demoIdx "emptyver"
    ⟨"emptyver", [], [], none, none⟩
    (by decide) (by decide) rfl rfl (by decide)).1 "9.9.9" (by decide) (by decide)
  have h2 := (C10_truthiness demoParse demoReg demoIdx "emptyidx"
    ⟨"emptyidx", [], [], none, none⟩
    (by decide) (by decide) rfl rfl (by decide)).2 (by decide)
  exact ⟨h1.trans (by decide), h2.1, h2.2⟩

/-- C5: order preservation: there are as many output lines as input lines,
each output line is exactly what the loop body produced for the input line in
the same position, and the run writes the output lines joined by a single
newline followed by exactly one trailing newline. -/
theorem C5_order_preservation (parse : String → Except String Req)
    (reg : String → LocalResult) (idx : String → RemoteResult) (content : String) :
    (updateLines parse reg idx (fileLines content)).fst.length
        = (fileLines content).length
    ∧ List.Forall₂ (fun a b => (processLine parse reg idx a).fst = [b])
        (fileLines content) (updateLines parse reg idx (fileLines content)).fst
    ∧ update_requirements_file parse reg idx (Except.ok content) none
        = Except.ok (FileOutcome.written
            (joinNl (updateLines parse reg idx (fileLines content)).fst ++ "\n"),
          (updateLines parse reg idx (fileLines content)).snd) :=
  ⟨updateLines_length parse reg idx (fileLines content),
   updateLines_forall2 parse reg idx (fileLines content),
   update_ok parse reg idx content⟩

/-- C8: lookup failures fail open: a local not-found is handled with only a
debug message, any other local error is logged at error level, and both are
treated as not installed so that resolution proceeds to the remote path; a
remote exception is logged at error level and treated as not found; and the
loop keeps processing the remaining lines after any line. -/
theorem C8_lookup_fail_open :
    (∀ (reg : String → LocalResult) (n : String), reg n = LocalResult.notFound →
      get_installed_version reg n
        = (none, [⟨LogLevel.debug, "Package " ++ n ++ " is not installed."⟩]))
    ∧ (∀ (reg : String → LocalResult) (n e : String), reg n = LocalResult.raised e →
      get_installed_version reg n
        = (none, [⟨LogLevel.error,
            "Error getting installed version for " ++ n ++ ": " ++ e⟩]))
    ∧ (∀ (idx : String → RemoteResult) (n e : String), idx n = RemoteResult.raised e →
      get_latest_version_from_pypi idx n
        = (none, [⟨LogLevel.error,
            "Error fetching latest version from PyPI for " ++ n ++ ": " ++ e⟩]))
    ∧ (∀ (parse : String → Except String Req) (reg : String → LocalResult)
        (idx : String → RemoteResult) (line : String) (req : Req) (w : String),
      isBlankOrComment line = false → parse line = Except.ok req →
      truthyOpt req.url = false → req.specifier = [] →
      (reg req.name = LocalResult.notFound ∨ ∃ e, reg req.name = LocalResult.raised e) →
      idx req.name = RemoteResult.response 200 (Except.ok w) → w ≠ "" →
      (processLine parse reg idx line).fst
        = [reconstructLine req (some "==") (some w)])
    ∧ (∀ (parse : String → Except String Req) (reg : String → LocalResult)
        (idx : String → RemoteResult) (l : String) (rest : List String),
      (updateLines parse reg idx (l :: rest)).fst
        = (processLine parse reg idx l).fst ++ (updateLines parse reg idx rest).fst) := by
  refine ⟨?_, ?_, ?_, ?_, ?_⟩
  · intro reg n h
    unfold get_installed_version
    rw [h]
  · intro reg n e h
    unfold get_installed_version
    rw [h]
  · intro idx n e h
    unfold get_latest_version_from_pypi
    rw [h]
  · intro parse reg idx line req w hbc hp hurl hspec hni hw hwne
    have hinst : truthyOpt (get_installed_version reg req.name).fst = false := by
      unfold get_installed_version
      rcases hni with h | ⟨e, h⟩ <;> rw [h] <;> rfl
    have hlat : get_latest_version_from_pypi idx req.name = (some w, []) := by
      unfold get_latest_version_from_pypi
      rw [hw]
      rfl
    unfold processLine
    rw [if_neg (by simp [hbc]), hp]
    dsimp only
    rw [if_neg (by simp [hurl]), if_neg (by simp [hinst]), if_pos (by simp [hspec]),
        hlat, if_pos (by simp [truthyOpt_some, (strTruthy_iff w).mpr hwne])]
  · intro parse reg idx l rest
    rfl

/-- Witness for C8: the concrete registry answers not-found and raised, the
concrete index raises, and an uninstalled package is still pinned from the
remote index. -/
theorem C8_witness :
    get_installed_version demoReg "nosuchpkg"
      = (none, [⟨LogLevel.debug, "Package nosuchpkg is not installed."⟩])
    ∧ get_installed_version demoReg "oops"
      = (none, [⟨LogLevel.error,
          "Error getting installed version for oops: metadata read failed"⟩])
    ∧ get_latest_version_from_pypi demoIdx "unreachable"
      = (none, [⟨LogLevel.error,
          "Error fetching latest version from PyPI for unreachable: connection refused"⟩])
    ∧ (processLine demoParse demoReg demoIdx "leftpad").fst
      = [reconstructLine ⟨"leftpad", [], [], none, none⟩ (some "==") (some "1.3.0")] := by
  refine ⟨?_, ?_, ?_, ?_⟩
  · exact (C8_lookup_fail_open.1 demoReg "nosuchpkg" (by decide)).trans (by decide)
  · exact (C8_lookup_fail_open.2.1 demoReg "oops" "metadata read failed"
      (by decide)).trans (by decide)
  · exact (C8_lookup_fail_open.2.2.1 demoIdx "unreachable" "connection refused"
      (by decide)).trans (by decide)
  · exact C8_lookup_fail_open.2.2.2.1 demoParse demoReg demoIdx "leftpad"
      ⟨"leftpad", [], [], none, none⟩ "1.3.0" (by decide) (by decide) rfl rfl
      (Or.inl (by decide)) (by decide) (by decide)

/-- A pinned line always contains the character `=`. -/
theorem reconstructLine_has_eq (req : Req) (v : String) (hv : v ≠ "") :
    '=' ∈ (reconstructLine req (some "==") (some v)).data := by
  rw [reconstructLine_eq req v hv]
  refine (data_append_mem _ _ _).mpr (Or.inl ?_)
  refine (data_append_mem _ _ _).mpr (Or.inl ?_)
  refine (data_append_mem _ _ _).mpr (Or.inr ?_)
  decide

/-- C4: idempotence: with the collaborators deterministic and unchanged, a
second run on the output of a first run writes exactly the first run's
output — every line the first run pinned now carries an explicit specifier
and is passed through, and every pass-through line reproduces itself.  Stated
under the sanity conditions the real collaborators satisfy: a successfully
re-parsed pinned line carries a specifier or a URL, and parsed components
and resolved versions contain no newline. -/
theorem C4_idempotent (parse : String → Except String Req)
    (reg : String → LocalResult) (idx : String → RemoteResult) (content : String)
    (H1 : ∀ req v req', v ≠ "" →
        parse (reconstructLine req (some "==") (some v)) = Except.ok req' →
        ¬req'.specifier.isEmpty = true ∨ truthyOpt req'.url = true)
    (H2 : ∀ s req, parse s = Except.ok req →
        '\n' ∉ req.name.data ∧ (∀ e ∈ req.extras, '\n' ∉ e.data)
        ∧ (∀ m, req.marker = some m → '\n' ∉ m.data))
    (H3 : ∀ n v, reg n = LocalResult.found v → '\n' ∉ v.data)
    (H4 : ∀ n v, idx n = RemoteResult.response 200 (Except.ok v) → '\n' ∉ v.data) :
    runContent parse reg idx (runContent parse reg idx content)
      = runContent parse reg idx content
    ∧ ∃ logs2, update_requirements_file parse reg idx
        (Except.ok (runContent parse reg idx content)) none
      = Except.ok (FileOutcome.written (runContent parse reg idx content), logs2) := by
  have main : runContent parse reg idx (runContent parse reg idx content)
      = runContent parse reg idx content := by
    rcases houts : (updateLines parse reg idx (fileLines content)).fst with _ | ⟨o, os⟩
    · have hc1 : runContent parse reg idx content = "\n" := by
        unfold runContent
        rw [houts]
        rfl
      rw [hc1]
      have hul : (updateLines parse reg idx [""]).fst = [""] := by
        unfold updateLines
        dsimp only
        rw [processLine_blank]
        rfl
      unfold runContent
      rw [show fileLines "\n" = [""] from rfl, hul]
      rfl
    · have hne : (updateLines parse reg idx (fileLines content)).fst ≠ [] := by
        rw [houts]
        simp
      have hnl : ∀ out ∈ (updateLines parse reg idx (fileLines content)).fst,
          '\n' ∉ out.data :=
        updateLines_out_noNl parse reg idx (fileLines content)
          (fileLines_noNl content) H2 H3 H4
      have hfix : ∀ out ∈ (updateLines parse reg idx (fileLines content)).fst,
          (processLine parse reg idx out).fst = [out] :=
        updateLines_out_fixed parse reg idx (fileLines content) H1
      have h2 : fileLines (runContent parse reg idx content)
          = (updateLines parse reg idx (fileLines content)).fst :=
        fileLines_joinNl _ hne hnl
      have h3 : (updateLines parse reg idx
            (fileLines (runContent parse reg idx content))).fst
          = (updateLines parse reg idx (fileLines content)).fst := by
        rw [h2]
        exact updateLines_fixed parse reg idx _ hfix
      show joinNl (updateLines parse reg idx
          (fileLines (runContent parse reg idx content))).fst ++ "\n"
        = runContent parse reg idx content
      rw [h3]
      rfl
  refine ⟨main, ⟨(updateLines parse reg idx
      (fileLines (runContent parse reg idx content))).snd, ?_⟩⟩
  rw [update_ok parse reg idx (runContent parse reg idx content), main]

/-- The concrete parser accepts a pinned line only with a specifier or URL. -/
theorem demoParse_pinned : ∀ req v req', v ≠ "" →
    demoParse (reconstructLine req (some "==") (some v)) = Except.ok req' →
    ¬req'.specifier.isEmpty = true ∨ truthyOpt req'.url = true := by
  intro req v req' hv hp
  have hmem := reconstructLine_has_eq req v hv
  unfold demoParse at hp
  repeat' split at hp
  all_goals first
    | (rename_i h
       rw [h] at hmem
       exact absurd hmem (by decide))
    | (cases hp
       exact Or.inl (by decide))
    | simp at hp

/-- The concrete parser only produces newline-free components. -/
theorem demoParse_noNl : ∀ s req, demoParse s = Except.ok req →
    '\n' ∉ req.name.data ∧ (∀ e ∈ req.extras, '\n' ∉ e.data)
    ∧ (∀ m, req.marker = some m → '\n' ∉ m.data) := by
  intro s req hp
  unfold demoParse at hp
  repeat' split at hp
  all_goals first
    | (cases hp
       exact ⟨by decide, by decide, by intro m hm; cases hm <;> decide⟩)
    | simp at hp

/-- The concrete registry only reports newline-free versions. -/
theorem demoReg_noNl : ∀ n v, demoReg n = LocalResult.found v → '\n' ∉ v.data := by
  intro n v h
  unfold demoReg at h
  repeat' split at h
  all_goals first
    | (cases h
       decide)
    | simp at h

/-- The concrete index only reports newline-free versions. -/
theorem demoIdx_noNl : ∀ n v,
    demoIdx n = RemoteResult.response 200 (Except.ok v) → '\n' ∉ v.data := by
  intro n v h
  unfold demoIdx at h
  repeat' split at h
  all_goals first
    | (cases h
       decide)
    | simp at h

/-- Witness for C4: a file with an installed package, a comment and an
already-versioned line is stable after the first run. -/
theorem C4_witness :
    runContent demoParse demoReg demoIdx
        (runContent demoParse demoReg demoIdx "numpy\n# comment\nflask>=2.0\n")
      = runContent demoParse demoReg demoIdx "numpy\n# comment\nflask>=2.0\n"
    ∧ runContent demoParse demoReg demoIdx "numpy\n# comment\nflask>=2.0\n"
      = "numpy==1.26.4\n# comment\nflask>=2.0\n" :=
  ⟨(C4_idempotent demoParse demoReg demoIdx "numpy\n# comment\nflask>=2.0\n"
      demoParse_pinned demoParse_noNl demoReg_noNl demoIdx_noNl).1,
   by decide⟩

end PopulateReq
